import Mathlib

/-!
Shallow embedding of the `gaeta` ETA-estimation library (`src/lib.rs`).

Modelling conventions:

* Rust `f64` values are modelled by `F`: either NaN, +∞, -∞, or an exact
  rational.  The operations used by the library (subtraction, addition,
  division, `==`, `>= 0`) are given IEEE-754 special-value semantics; finite
  arithmetic is exact rational arithmetic (idealised: no rounding).  All zero
  divisors arising in this library are IEEE `+0.0` (they come from `u64`
  casts or from the literal `0f64`), so `F` does not track the sign of zero.
* Rust `u64` is modelled by `Nat`; the one place the library can underflow a
  `u64` subtraction (`vitem.timestamp - self.fts.unwrap_or(0)`) is modelled
  by the wrapping subtraction `u64sub` (this crate predates overflow checks:
  `uint` arithmetic wrapped).
* `vhist.get(vhist.len() - 1)` wraps `len - 1` to a huge index when the
  buffer is empty, so `get` returns `None` exactly when the buffer is empty;
  it is modelled by `List.getLast?`.
* The float→integer cast `whole_work as int` is undefined in the source
  language when the operand is NaN, infinite or out of range; `F.toIntCast`
  returns `none` in the non-finite cases, so `get_remaining_time` returns
  `Option ℤ` (`none` = the cast has no defined result).
* The `GetTimestamp` time source is modelled by passing the values its two
  reads would return as explicit arguments to `update_eta` (`ts1` for the
  read that may initialise `fts`, `ts2` for the read taken for the sample).
-/

/-- IEEE-style `f64` model: NaN, +∞, -∞ or an exact rational. -/
inductive F where
  | nan : F
  | pinf : F
  | ninf : F
  | fin : ℚ → F
deriving DecidableEq

/-- `f64` subtraction on the model. -/
def F.sub : F → F → F
  | F.nan, _ => F.nan
  | _, F.nan => F.nan
  | F.pinf, F.pinf => F.nan
  | F.pinf, F.ninf => F.pinf
  | F.pinf, F.fin _ => F.pinf
  | F.ninf, F.ninf => F.nan
  | F.ninf, F.pinf => F.ninf
  | F.ninf, F.fin _ => F.ninf
  | F.fin _, F.pinf => F.ninf
  | F.fin _, F.ninf => F.pinf
  | F.fin a, F.fin b => F.fin (a - b)

/-- `f64` addition on the model. -/
def F.add : F → F → F
  | F.nan, _ => F.nan
  | _, F.nan => F.nan
  | F.pinf, F.pinf => F.pinf
  | F.pinf, F.ninf => F.nan
  | F.pinf, F.fin _ => F.pinf
  | F.ninf, F.ninf => F.ninf
  | F.ninf, F.pinf => F.nan
  | F.ninf, F.fin _ => F.ninf
  | F.fin _, F.pinf => F.pinf
  | F.fin _, F.ninf => F.ninf
  | F.fin a, F.fin b => F.fin (a + b)

/-- `f64` division on the model.  A zero divisor is IEEE `+0.0` (the only
zeros the library ever divides by come from `u64` casts or `0f64`). -/
def F.div : F → F → F
  | F.nan, _ => F.nan
  | _, F.nan => F.nan
  | F.pinf, F.pinf => F.nan
  | F.pinf, F.ninf => F.nan
  | F.ninf, F.pinf => F.nan
  | F.ninf, F.ninf => F.nan
  | F.pinf, F.fin b => if 0 ≤ b then F.pinf else F.ninf
  | F.ninf, F.fin b => if 0 ≤ b then F.ninf else F.pinf
  | F.fin _, F.pinf => F.fin 0
  | F.fin _, F.ninf => F.fin 0
  | F.fin a, F.fin b =>
      if b = 0 then
        if 0 < a then F.pinf else if a < 0 then F.ninf else F.nan
      else F.fin (a / b)

/-- `f64` `==` comparison: NaN compares unequal to everything. -/
def F.beq : F → F → Bool
  | F.nan, _ => false
  | _, F.nan => false
  | F.pinf, F.pinf => true
  | F.ninf, F.ninf => true
  | F.fin a, F.fin b => a = b
  | _, _ => false

/-- `f64` `>= 0f64` comparison: false on NaN and -∞. -/
def F.geZero : F → Bool
  | F.nan => false
  | F.pinf => true
  | F.ninf => false
  | F.fin a => 0 ≤ a

/-- The Rust cast `x as int`: truncation toward zero for finite values,
undefined (`none`) for NaN and the infinities. -/
def F.toIntCast : F → Option ℤ
  | F.fin a => some (if 0 ≤ a then ⌊a⌋ else ⌈a⌉)
  | _ => none

/-- The rational carried by a finite `F` (0 for the non-finite values). -/
def F.finVal : F → ℚ
  | F.fin a => a
  | _ => 0

/-- Wrapping `u64` subtraction (this crate predates overflow checks, so
`u64` subtraction wrapped modulo `2^64`).  Correct for operands `< 2^64`. -/
def u64sub (a b : Nat) : Nat :=
  (a + (2 ^ 64 - b % 2 ^ 64)) % 2 ^ 64

/-- One history entry: `struct Sample { timestamp: u64, progress: f64 }`. -/
structure Sample where
  timestamp : Nat
  progress : F
deriving DecidableEq

/-- The tracker state, `struct TimeContext` (the `timefunc` field is
modelled by passing timestamps explicitly to `update_eta`). -/
structure TimeContext where
  curspeed : F
  cprog : F
  fts : Option Nat
  fprog : Option F
  samples : List Sample
deriving DecidableEq

/-- `TimeContext::new`: zero speed and progress, unset firsts, empty
history. -/
def TimeContext.new : TimeContext :=
  { curspeed := F.fin 0, cprog := F.fin 0, fts := none, fprog := none,
    samples := [] }

/-- `get_progress`: `(cur as f64) * 100.0 / (max as f64)`.  The product
`cur * 100` is exact in the model; division by `max = 0` produces
+∞ (for `cur > 0`) or NaN (for `cur = 0`), as in IEEE arithmetic. -/
def get_progress (cur max : Nat) : F :=
  F.div (F.fin ((cur : ℚ) * 100)) (F.fin (max : ℚ))

/-- `update_history`: store the recomputed progress, set `fprog` on first
use, then either return early (deduplication: the last stored sample's
absolute progress — `0` when the history is empty — equals
`prog - fprog`) or append `{ts, prog}`, evicting the front sample when the
buffer already holds more than 9 entries. -/
def update_history (ts : Nat) (cur_prog max_prog : Nat) (s : TimeContext) :
    TimeContext :=
  let prog := get_progress cur_prog max_prog
  let fprog := match s.fprog with
    | none => prog
    | some p => p
  let last_progress := match s.samples.getLast? with
    | some tv => tv.progress
    | none => F.fin 0
  let base : TimeContext := { s with cprog := prog, fprog := some fprog }
  if F.beq last_progress (F.sub prog fprog) then
    base
  else
    let vhist := if base.samples.length > 9 then base.samples.tail
      else base.samples
    { base with samples := vhist ++ [{ timestamp := ts, progress := prog }] }

/-- The loop body of `calc_speed_per_unit`: add
`percent / (timestamp == 0 ? 1 : timestamp)` to the accumulator, where
`timestamp` is the (wrapping) `u64` difference from `fts` and `percent` is
the `f64` difference from `fprog`. -/
def speed_step (fts : Nat) (fprog : F) (acc : F) (smp : Sample) : F :=
  let timestamp := u64sub smp.timestamp fts
  let percent := F.sub smp.progress fprog
  F.add acc (F.div percent (F.fin ((if timestamp = 0 then 1 else timestamp : Nat) : ℚ)))

/-- `calc_speed_per_unit`: 0 for an empty history, otherwise the sum of the
per-sample speeds divided by the number of samples. -/
def calc_speed_per_unit (s : TimeContext) : F :=
  if s.samples.length = 0 then F.fin 0
  else
    F.div (s.samples.foldl (speed_step (s.fts.getD 0) (s.fprog.getD (F.fin 0)))
        (F.fin 0))
      (F.fin ((s.samples.length : ℚ)))

/-- `update_eta`: set `fts` from the first time-source read if unset, update
the history using the second read, then recompute `curspeed`. -/
def update_eta (ts1 ts2 : Nat) (cur_prog max_prog : Nat) (s : TimeContext) :
    TimeContext :=
  let s0 := match s.fts with
    | none => { s with fts := some ts1 }
    | some _ => s
  let s1 := update_history ts2 cur_prog max_prog s0
  { s1 with curspeed := calc_speed_per_unit s1 }

/-- `get_remaining_time`: 0 before the first update; otherwise
`(100 - (cprog - fprog)) / curspeed`, cast to an integer when `>= 0`, else
0.  The result is `none` when the cast is reached with a non-finite
operand (undefined in the source language). -/
def get_remaining_time (s : TimeContext) : Option ℤ :=
  match s.fts with
  | none => some 0
  | some _ =>
    match s.fprog with
    | none => some 0
    | some fp =>
      let remaining_prc := F.sub (F.fin 100) (F.sub s.cprog fp)
      let whole_work := F.div remaining_prc s.curspeed
      if F.geZero whole_work then F.toIntCast whole_work else some 0

/-- Run a sequence of `update_eta` calls where each call supplies its two
time-source reads and the two progress arguments. -/
def run4 (calls : List (Nat × Nat × Nat × Nat)) (s : TimeContext) :
    TimeContext :=
  calls.foldl (fun st e => update_eta e.1 e.2.1 e.2.2.1 e.2.2.2 st) s

/-- Run a sequence of `update_eta` calls against a `TestTimer`-style time
source: each call fixes one timestamp, returned by both reads. -/
def runTrace (calls : List (Nat × Nat × Nat)) (s : TimeContext) :
    TimeContext :=
  calls.foldl (fun st e => update_eta e.1 e.1 e.2.1 e.2.2 st) s

/-- The speed the spec ascribes to one sample (claim C3's formula): the
progress delta over `s_i.timestamp - first_timestamp`, with divisor 1 when
that difference is zero.  Written from the spec's words, with ordinary
(non-wrapping) natural subtraction. -/
def spec_sample_speed (fts : Nat) (fprog : ℚ) (smp : Sample) : ℚ :=
  (F.finVal smp.progress - fprog) /
    ((if smp.timestamp - fts = 0 then 1 else smp.timestamp - fts : Nat) : ℚ)

/-- The per-sample speed actually computed by the loop body of
`calc_speed_per_unit`, as a rational (only meaningful when the sample's
progress and `fprog` are finite). -/
def code_sample_speed (fts : Nat) (fprog : ℚ) (smp : Sample) : ℚ :=
  (F.finVal smp.progress - fprog) /
    ((if u64sub smp.timestamp fts = 0 then 1
      else u64sub smp.timestamp fts : Nat) : ℚ)

lemma F.div_fin_fin_of_ne (a b : ℚ) (hb : b ≠ 0) :
    F.div (F.fin a) (F.fin b) = F.fin (a / b) := by
  simp [F.div, hb]

lemma F.sub_fin (a b : ℚ) : F.sub (F.fin a) (F.fin b) = F.fin (a - b) := rfl

lemma F.add_fin (a b : ℚ) : F.add (F.fin a) (F.fin b) = F.fin (a + b) := rfl

lemma get_progress_of_ne_zero (c m : Nat) (hm : m ≠ 0) :
    get_progress c m = F.fin ((c * 100 : ℚ) / (m : ℚ)) := by
  have hm' : ((m : ℚ)) ≠ 0 := by exact_mod_cast hm
  simp [get_progress, F.div_fin_fin_of_ne _ _ hm']

lemma run4_nil (s : TimeContext) : run4 [] s = s := rfl

lemma run4_cons (e : Nat × Nat × Nat × Nat) (cs : List (Nat × Nat × Nat × Nat))
    (s : TimeContext) :
    run4 (e :: cs) s = run4 cs (update_eta e.1 e.2.1 e.2.2.1 e.2.2.2 s) := rfl

lemma runTrace_nil (s : TimeContext) : runTrace [] s = s := rfl

lemma runTrace_cons (e : Nat × Nat × Nat) (cs : List (Nat × Nat × Nat))
    (s : TimeContext) :
    runTrace (e :: cs) s = runTrace cs (update_eta e.1 e.1 e.2.1 e.2.2 s) := rfl

/-- The very first `update_eta` call: both firsts get set, the history stays
empty (the dedup comparison `0 == prog - prog` fires), the speed is 0. -/
lemma update_eta_first (t1 t2 c m : Nat) (hm : m ≠ 0) :
    update_eta t1 t2 c m TimeContext.new =
      { curspeed := F.fin 0, cprog := F.fin ((c * 100 : ℚ) / (m : ℚ)),
        fts := some t1, fprog := some (F.fin ((c * 100 : ℚ) / (m : ℚ))),
        samples := [] } := by
  simp [update_eta, update_history, TimeContext.new, calc_speed_per_unit,
    get_progress_of_ne_zero c m hm, F.sub, F.beq]

lemma update_history_length_le (ts c m : Nat) (s : TimeContext)
    (h : s.samples.length ≤ 10) :
    (update_history ts c m s).samples.length ≤ 10 := by
  cases hfp : s.fprog <;> cases hl : s.samples.getLast? <;>
  · simp only [update_history, hfp, hl]
    split
    · exact h
    · simp only [List.length_append, List.length_cons, List.length_nil]
      split
      · simp only [List.length_tail]
        omega
      · omega

lemma update_eta_length_le (t1 t2 c m : Nat) (s : TimeContext)
    (h : s.samples.length ≤ 10) :
    (update_eta t1 t2 c m s).samples.length ≤ 10 := by
  cases hf : s.fts <;> simp only [update_eta, hf] <;>
    exact update_history_length_le t2 c m _ h

lemma update_history_fts (ts c m : Nat) (s : TimeContext) :
    (update_history ts c m s).fts = s.fts := by
  cases hfp : s.fprog <;> cases hl : s.samples.getLast? <;>
  · simp only [update_history, hfp, hl]
    split <;> rfl

lemma update_eta_fts_some (t1 t2 c m a : Nat) (s : TimeContext)
    (h : s.fts = some a) : (update_eta t1 t2 c m s).fts = some a := by
  simp only [update_eta, h]
  exact (update_history_fts t2 c m s).trans h

lemma update_history_fprog_some (ts c m : Nat) (p : F) (s : TimeContext)
    (h : s.fprog = some p) : (update_history ts c m s).fprog = some p := by
  cases hl : s.samples.getLast? <;>
  · simp only [update_history, h, hl]
    split <;> rfl

lemma update_eta_fprog_some (t1 t2 c m : Nat) (p : F) (s : TimeContext)
    (h : s.fprog = some p) : (update_eta t1 t2 c m s).fprog = some p := by
  cases hf : s.fts <;> simp only [update_eta, hf] <;>
    exact update_history_fprog_some _ _ _ _ _ h

lemma run4_length_le :
    ∀ (calls : List (Nat × Nat × Nat × Nat)) (s : TimeContext),
      s.samples.length ≤ 10 → (run4 calls s).samples.length ≤ 10
  | [], _, h => h
  | e :: cs, s, h =>
    run4_length_le cs _ (update_eta_length_le e.1 e.2.1 e.2.2.1 e.2.2.2 s h)

lemma run4_fts_some :
    ∀ (calls : List (Nat × Nat × Nat × Nat)) (s : TimeContext) (a : Nat),
      s.fts = some a → (run4 calls s).fts = some a
  | [], _, _, h => h
  | e :: cs, s, a, h =>
    run4_fts_some cs _ a (update_eta_fts_some e.1 e.2.1 e.2.2.1 e.2.2.2 a s h)

lemma run4_fprog_some :
    ∀ (calls : List (Nat × Nat × Nat × Nat)) (s : TimeContext) (p : F),
      s.fprog = some p → (run4 calls s).fprog = some p
  | [], _, _, h => h
  | e :: cs, s, p, h =>
    run4_fprog_some cs _ p
      (update_eta_fprog_some e.1 e.2.1 e.2.2.1 e.2.2.2 p s h)

lemma update_eta_new_fts (t1 t2 c m : Nat) :
    (update_eta t1 t2 c m TimeContext.new).fts = some t1 := by
  simp only [update_eta, TimeContext.new]
  exact update_history_fts t2 c m _

lemma update_eta_new_fprog (t1 t2 c m : Nat) :
    (update_eta t1 t2 c m TimeContext.new).fprog =
      some (get_progress c m) := by
  simp only [update_eta, update_history, TimeContext.new]
  split <;> rfl

lemma u64sub_of_le (a b : Nat) (hba : b ≤ a) (ha : a < 2 ^ 64) :
    u64sub a b = a - b := by
  unfold u64sub
  have hb : b % 2 ^ 64 = b := Nat.mod_eq_of_lt (lt_of_le_of_lt hba ha)
  rw [hb]
  have h1 : a + (2 ^ 64 - b) = (a - b) + 2 ^ 64 := by omega
  rw [h1, Nat.add_mod_right]
  exact Nat.mod_eq_of_lt (by omega)

lemma speed_step_fin (fts : Nat) (f a : ℚ) (smp : Sample) (r : ℚ)
    (hr : smp.progress = F.fin r) :
    speed_step fts (F.fin f) (F.fin a) smp =
      F.fin (a + code_sample_speed fts f smp) := by
  have hd : (if u64sub smp.timestamp fts = 0 then 1
      else u64sub smp.timestamp fts : Nat) ≠ 0 := by
    split <;> simp_all
  have hd' : ((if u64sub smp.timestamp fts = 0 then 1
      else u64sub smp.timestamp fts : Nat) : ℚ) ≠ 0 := by exact_mod_cast hd
  simp only [speed_step, hr, F.sub_fin]
  rw [F.div_fin_fin_of_ne _ _ hd', F.add_fin]
  simp only [code_sample_speed, hr, F.finVal]

lemma foldl_speed_step_fin (fts : Nat) (f : ℚ) :
    ∀ (l : List Sample) (a : ℚ),
      (∀ smp ∈ l, ∃ r, smp.progress = F.fin r) →
      l.foldl (speed_step fts (F.fin f)) (F.fin a) =
        F.fin (a + (l.map (code_sample_speed fts f)).sum)
  | [], a, _ => by simp
  | smp :: l, a, h => by
    obtain ⟨r, hr⟩ := h smp (by simp)
    rw [List.foldl_cons, speed_step_fin fts f a smp r hr,
      foldl_speed_step_fin fts f l _ (fun x hx => h x (by simp [hx]))]
    simp only [List.map_cons, List.sum_cons]
    ring_nf

lemma calc_speed_eq_code (s : TimeContext) (f : ℚ)
    (hfp : s.fprog = some (F.fin f)) (hne : s.samples ≠ [])
    (hfin : ∀ smp ∈ s.samples, ∃ r, smp.progress = F.fin r) :
    calc_speed_per_unit s =
      F.fin ((s.samples.map (code_sample_speed (s.fts.getD 0) f)).sum /
        (s.samples.length : ℚ)) := by
  have hlen : s.samples.length ≠ 0 := by simpa using hne
  have hlen' : ((s.samples.length : ℚ)) ≠ 0 := by exact_mod_cast hlen
  simp only [calc_speed_per_unit, hlen, if_false, hfp, Option.getD_some]
  rw [foldl_speed_step_fin _ _ _ _ hfin, F.div_fin_fin_of_ne _ _ hlen']
  simp

lemma calc_speed_nonneg (s : TimeContext) (f : ℚ)
    (hfp : s.fprog = some (F.fin f))
    (hmono : ∀ smp ∈ s.samples, ∃ r, smp.progress = F.fin r ∧ f ≤ r) :
    ∃ q, 0 ≤ q ∧ calc_speed_per_unit s = F.fin q := by
  by_cases hne : s.samples = []
  · exact ⟨0, le_refl 0, by simp [calc_speed_per_unit, hne]⟩
  · refine ⟨_, ?_, calc_speed_eq_code s f hfp hne
      (fun smp h => ⟨(hmono smp h).choose, (hmono smp h).choose_spec.1⟩)⟩
    apply div_nonneg
    · apply List.sum_nonneg
      intro x hx
      obtain ⟨smp, hsmp, rfl⟩ := List.mem_map.mp hx
      obtain ⟨r, hr, hfr⟩ := hmono smp hsmp
      unfold code_sample_speed
      apply div_nonneg
      · rw [hr]
        simp only [F.finVal]
        linarith
      · exact_mod_cast Nat.zero_le _
    · exact_mod_cast Nat.zero_le _

lemma update_history_samples_cases (ts c m : Nat) (s : TimeContext) :
    (update_history ts c m s).samples = s.samples ∨
    (update_history ts c m s).samples =
      (if s.samples.length > 9 then s.samples.tail else s.samples) ++
        [{ timestamp := ts, progress := get_progress c m }] := by
  cases hfp : s.fprog <;> cases hl : s.samples.getLast? <;>
  · simp only [update_history, hfp, hl]
    split
    · exact Or.inl rfl
    · exact Or.inr rfl

/-- States whose first progress is the finite `f` and whose samples all
carry finite progress at least `f`. -/
def SpeedInv (f : ℚ) (s : TimeContext) : Prop :=
  s.fprog = some (F.fin f) ∧
    ∀ smp ∈ s.samples, ∃ r, smp.progress = F.fin r ∧ f ≤ r

lemma update_history_inv (ts c m : Nat) (f : ℚ) (s : TimeContext)
    (hm : m ≠ 0) (hf : f ≤ (c * 100 : ℚ) / (m : ℚ)) (h : SpeedInv f s) :
    SpeedInv f (update_history ts c m s) := by
  obtain ⟨hfp, hsm⟩ := h
  refine ⟨update_history_fprog_some _ _ _ _ _ hfp, ?_⟩
  intro smp hmem
  rcases update_history_samples_cases ts c m s with hc | hc
  · exact hsm smp (hc ▸ hmem)
  · rw [hc] at hmem
    rcases List.mem_append.mp hmem with hmem | hmem
    · have : smp ∈ s.samples := by
        rcases (by assumption : smp ∈ _) with _
        by_cases h9 : s.samples.length > 9
        · rw [if_pos h9] at hmem
          exact List.mem_of_mem_tail hmem
        · rwa [if_neg h9] at hmem
      exact hsm smp this
    · have : smp = { timestamp := ts, progress := get_progress c m } := by
        simpa using hmem
      subst this
      exact ⟨(c * 100 : ℚ) / (m : ℚ), get_progress_of_ne_zero c m hm, hf⟩

lemma update_eta_inv (t1 t2 c m : Nat) (f : ℚ) (s : TimeContext)
    (hm : m ≠ 0) (hf : f ≤ (c * 100 : ℚ) / (m : ℚ)) (h : SpeedInv f s) :
    SpeedInv f (update_eta t1 t2 c m s) := by
  cases hft : s.fts <;> simp only [update_eta, hft] <;>
    exact update_history_inv t2 c m f _ hm hf h

lemma runTrace_inv :
    ∀ (tr : List (Nat × Nat × Nat)) (s : TimeContext) (f : ℚ),
      SpeedInv f s → (∀ e ∈ tr, e.2.2 ≠ 0) →
      (∀ e ∈ tr, f ≤ (e.2.1 * 100 : ℚ) / (e.2.2 : ℚ)) →
      SpeedInv f (runTrace tr s)
  | [], _, _, h, _, _ => h
  | e :: tr, s, f, h, hm, hp =>
    runTrace_inv tr _ f
      (update_eta_inv e.1 e.1 e.2.1 e.2.2 f s (hm e (by simp))
        (hp e (by simp)) h)
      (fun x hx => hm x (by simp [hx])) (fun x hx => hp x (by simp [hx]))

/-- The progress of the last stored sample, `0` when the history is empty
(what `vhist.get(vhist.len() - 1)` yields in `update_history`). -/
def last_progress (s : TimeContext) : F :=
  match s.samples.getLast? with
  | some tv => tv.progress
  | none => F.fin 0

lemma F.beq_fin (a b : ℚ) : F.beq (F.fin a) (F.fin b) = decide (a = b) := rfl

lemma F.beq_fin_self (a : ℚ) : F.beq (F.fin a) (F.fin a) = true := by
  simp [F.beq]

lemma last_progress_congr (s1 s2 : TimeContext)
    (h : s1.samples = s2.samples) : last_progress s1 = last_progress s2 := by
  simp [last_progress, h]

lemma last_progress_of_samples_concat (s : TimeContext) (l : List Sample)
    (x : Sample) (h : s.samples = l ++ [x]) : last_progress s = x.progress := by
  simp [last_progress, h, List.getLast?_concat]

lemma update_history_dedup (ts c m : Nat) (s : TimeContext) (fp : F)
    (hfp : s.fprog = some fp)
    (hbeq : F.beq (last_progress s) (F.sub (get_progress c m) fp) = true) :
    (update_history ts c m s).samples = s.samples := by
  cases hl : s.samples.getLast? <;>
  · simp only [last_progress, hl] at hbeq
    simp only [update_history, hfp, hl]
    split
    · rfl
    · rename_i hf
      exact absurd hbeq hf

lemma update_history_append (ts c m : Nat) (s : TimeContext) (fp : F)
    (hfp : s.fprog = some fp)
    (hbeq : F.beq (last_progress s) (F.sub (get_progress c m) fp) = false) :
    (update_history ts c m s).samples =
      (if s.samples.length > 9 then s.samples.tail else s.samples) ++
        [{ timestamp := ts, progress := get_progress c m }] := by
  cases hl : s.samples.getLast? <;>
  · simp only [last_progress, hl] at hbeq
    simp only [update_history, hfp, hl]
    split
    · rename_i ht
      rw [hbeq] at ht
      cases ht
    · rfl

lemma update_eta_dedup (t1 t2 c m : Nat) (s : TimeContext) (fp : F)
    (hfp : s.fprog = some fp)
    (hbeq : F.beq (last_progress s) (F.sub (get_progress c m) fp) = true) :
    (update_eta t1 t2 c m s).samples = s.samples := by
  cases hft : s.fts <;> simp only [update_eta, hft] <;>
    exact update_history_dedup t2 c m _ fp hfp hbeq

lemma update_eta_append (t1 t2 c m : Nat) (s : TimeContext) (fp : F)
    (hfp : s.fprog = some fp)
    (hbeq : F.beq (last_progress s) (F.sub (get_progress c m) fp) = false) :
    (update_eta t1 t2 c m s).samples =
      (if s.samples.length > 9 then s.samples.tail else s.samples) ++
        [{ timestamp := t2, progress := get_progress c m }] := by
  cases hft : s.fts <;> simp only [update_eta, hft] <;>
    exact update_history_append t2 c m _ fp hfp hbeq

lemma update_history_cprog (ts c m : Nat) (s : TimeContext) :
    (update_history ts c m s).cprog = get_progress c m := by
  cases hfp : s.fprog <;> cases hl : s.samples.getLast? <;>
  · simp only [update_history, hfp, hl]
    split <;> rfl

lemma update_eta_cprog (t1 t2 c m : Nat) (s : TimeContext) :
    (update_eta t1 t2 c m s).cprog = get_progress c m := by
  cases hft : s.fts <;> simp only [update_eta, hft] <;>
    exact update_history_cprog t2 c m _

/-- The trace of §8's main scenario: the `TestTimer` is set to
`t = 0, 10, ..., 90` and `update_eta(cur, 100)` is called with
`cur = 0, 10, ..., 90`, one call per timestamp. -/
def c2trace : List (Nat × Nat × Nat) :=
  [(0, 0, 100), (10, 10, 100), (20, 20, 100), (30, 30, 100), (40, 40, 100),
   (50, 50, 100), (60, 60, 100), (70, 70, 100), (80, 80, 100), (90, 90, 100)]

/-- The tracker state the scenario trace actually reaches: the progress-0
sample is missing (the dedup comparison `0 == 0 - 0` fired on the first
call), so the history holds the nine samples at progress 10..90. -/
def c2final : TimeContext :=
  { curspeed := F.fin 1, cprog := F.fin 90, fts := some 0,
    fprog := some (F.fin 0),
    samples :=
      [{ timestamp := 10, progress := F.fin 10 },
       { timestamp := 20, progress := F.fin 20 },
       { timestamp := 30, progress := F.fin 30 },
       { timestamp := 40, progress := F.fin 40 },
       { timestamp := 50, progress := F.fin 50 },
       { timestamp := 60, progress := F.fin 60 },
       { timestamp := 70, progress := F.fin 70 },
       { timestamp := 80, progress := F.fin 80 },
       { timestamp := 90, progress := F.fin 90 }] }

set_option maxHeartbeats 2000000 in
lemma runTrace_c2 : runTrace c2trace TimeContext.new = c2final := by
  norm_num [c2trace, c2final, runTrace, update_eta, update_history,
    calc_speed_per_unit, speed_step, get_progress, u64sub, F.div, F.beq,
    F.sub, F.add, TimeContext.new, List.cons_ne_nil]

/-- Claim C2, counterexample: on the scenario trace the history does NOT
hold samples at progress 0, 10, ..., 90 — the progress-0 sample of the
first call was suppressed by the deduplication rule. -/
theorem c2_history_cex :
    (runTrace c2trace TimeContext.new).samples.map
        (fun smp => smp.progress) ≠
      [F.fin 0, F.fin 10, F.fin 20, F.fin 30, F.fin 40, F.fin 50, F.fin 60,
       F.fin 70, F.fin 80, F.fin 90] := by
  rw [runTrace_c2]
  intro h
  simpa [c2final] using congrArg List.length h

/-- Claim C2, amended: after the ten scenario calls the history holds
exactly the nine samples at progress 10, 20, ..., 90 (each taken at the
matching timestamp); the dedup rule fires exactly once, on the first call,
suppressing the progress-0 sample. -/
theorem c2_history :
    (runTrace c2trace TimeContext.new).samples =
      [{ timestamp := 10, progress := F.fin 10 },
       { timestamp := 20, progress := F.fin 20 },
       { timestamp := 30, progress := F.fin 30 },
       { timestamp := 40, progress := F.fin 40 },
       { timestamp := 50, progress := F.fin 50 },
       { timestamp := 60, progress := F.fin 60 },
       { timestamp := 70, progress := F.fin 70 },
       { timestamp := 80, progress := F.fin 80 },
       { timestamp := 90, progress := F.fin 90 }] := by
  rw [runTrace_c2]
  rfl

/-- Claim C10: after the ten scenario calls the measured speed is exactly
1 percent per time unit and the remaining-time estimate is exactly 10. -/
theorem c10_speed_and_remaining :
    calc_speed_per_unit (runTrace c2trace TimeContext.new) = F.fin 1 ∧
    get_remaining_time (runTrace c2trace TimeContext.new) = some 10 := by
  rw [runTrace_c2]
  constructor
  · norm_num [c2final, calc_speed_per_unit, speed_step, u64sub, F.div,
      F.sub, F.add, List.cons_ne_nil]
  · norm_num [c2final, get_remaining_time, F.sub, F.div, F.geZero,
      F.toIntCast]

/-- Claim C9: `update_eta(50, 0)` on a fresh tracker divides by zero; the
resulting `current_progress` is +∞, and `get_remaining_time` returns 0
(the NaN speed makes `eta` NaN, and `NaN >= 0` is false), with no error. -/
theorem c9_div_zero_absorbed :
    ((update_eta 7 7 50 0 TimeContext.new).cprog = F.pinf ∨
     (update_eta 7 7 50 0 TimeContext.new).cprog = F.nan) ∧
    get_remaining_time (update_eta 7 7 50 0 TimeContext.new) = some 0 := by
  constructor
  · left
    norm_num [update_eta, update_history, TimeContext.new, get_progress,
      F.div, F.beq, F.sub]
  · norm_num [update_eta, update_history, calc_speed_per_unit, speed_step,
      get_progress, u64sub, F.div, F.beq, F.sub, F.add, F.geZero,
      F.toIntCast, get_remaining_time, TimeContext.new]

/-- Claim C5, counterexample: after a single `update_eta(50, 100)` on a
fresh tracker, `get_remaining_time` does not return 0: the speed is 0, so
`eta = 100 / 0.0 = +∞`, which passes the `>= 0` test, and the function
returns the (undefined) integer cast of +∞. -/
theorem c5_first_update_remaining_cex :
    get_remaining_time (update_eta 5 5 50 100 TimeContext.new) ≠ some 0 := by
  have h : get_remaining_time (update_eta 5 5 50 100 TimeContext.new) =
      none := by
    norm_num [update_eta, update_history, calc_speed_per_unit, speed_step,
      get_progress, u64sub, F.div, F.beq, F.sub, F.add, F.geZero,
      F.toIntCast, get_remaining_time, TimeContext.new]
  rw [h]
  simp

/-- Claim C5, amended: on the very first `update_eta` call on a fresh
tracker with `max_prog ≠ 0`, no sample is appended (the dedup check
`0 == prog - prog` fires after `first_progress` is set), the history stays
empty and the speed stays 0, and both firsts are set — but
`get_remaining_time` then computes `eta = 100 / 0.0 = +∞`, takes the
`eta >= 0` branch and returns the integer cast of +∞, which is undefined
(modelled `none`), not 0. -/
theorem c5_first_update (t1 t2 c m : Nat) (hm : m ≠ 0) :
    (update_eta t1 t2 c m TimeContext.new).samples = [] ∧
    (update_eta t1 t2 c m TimeContext.new).curspeed = F.fin 0 ∧
    (update_eta t1 t2 c m TimeContext.new).fts = some t1 ∧
    (update_eta t1 t2 c m TimeContext.new).fprog =
      some (F.fin ((c * 100 : ℚ) / (m : ℚ))) ∧
    (update_eta t1 t2 c m TimeContext.new).cprog =
      F.fin ((c * 100 : ℚ) / (m : ℚ)) ∧
    get_remaining_time (update_eta t1 t2 c m TimeContext.new) = none := by
  rw [update_eta_first t1 t2 c m hm]
  refine ⟨rfl, rfl, rfl, rfl, rfl, ?_⟩
  norm_num [get_remaining_time, F.sub_fin, F.div, F.geZero, F.toIntCast]

/-- Witness for C5's amended theorem at `update_eta(50, 100)` read at
time 5. -/
theorem c5_first_update_witness :
    (update_eta 5 5 50 100 TimeContext.new).samples = [] ∧
    (update_eta 5 5 50 100 TimeContext.new).curspeed = F.fin 0 ∧
    (update_eta 5 5 50 100 TimeContext.new).fts = some 5 ∧
    (update_eta 5 5 50 100 TimeContext.new).fprog = some (F.fin 50) ∧
    (update_eta 5 5 50 100 TimeContext.new).cprog = F.fin 50 ∧
    get_remaining_time (update_eta 5 5 50 100 TimeContext.new) = none := by
  have h := c5_first_update 5 5 50 100 (by norm_num)
  norm_num at h
  exact h

/-- Claim C6: after any sequence of `update_eta` calls — any arguments,
any pair of time-source reads per call — the history holds at most 10
samples (every prefix of a sequence is itself a sequence, so the bound
holds after every call). -/
theorem c6_history_bounded (calls : List (Nat × Nat × Nat × Nat)) :
    (run4 calls TimeContext.new).samples.length ≤ 10 :=
  run4_length_le calls TimeContext.new (by norm_num [TimeContext.new])

/-- Claim C7: the first `update_eta` call on a fresh tracker sets
`first_timestamp` from the time source's first read and `first_progress`
from the computed progress percentage, and no later sequence of calls ever
changes either (the read-only operations `calc_speed_per_unit` and
`get_remaining_time` do not mutate the state at all in the embedding). -/
theorem c7_firsts_immutable (t1 t2 c m : Nat)
    (calls : List (Nat × Nat × Nat × Nat)) :
    (update_eta t1 t2 c m TimeContext.new).fts = some t1 ∧
    (update_eta t1 t2 c m TimeContext.new).fprog = some (get_progress c m) ∧
    (run4 calls (update_eta t1 t2 c m TimeContext.new)).fts = some t1 ∧
    (run4 calls (update_eta t1 t2 c m TimeContext.new)).fprog =
      some (get_progress c m) :=
  ⟨update_eta_new_fts t1 t2 c m, update_eta_new_fprog t1 t2 c m,
    run4_fts_some calls _ t1 (update_eta_new_fts t1 t2 c m),
    run4_fprog_some calls _ (get_progress c m)
      (update_eta_new_fprog t1 t2 c m)⟩

/-- Claim C1, counterexample: starting from a fresh tracker, the calls
`update(10,100); update(20,100); update(20,100)` (timestamps 1, 2, 3) end
with TWO samples: the third call repeats the second's arguments with an
advancing timestamp and `max_prog ≠ 0`, yet a new sample IS appended,
because the dedup rule compares the last sample's absolute progress (20)
with the relative delta `progress - first_progress` (20 - 10 = 10). -/
theorem c1_dedup_cex :
    (runTrace [(1, 10, 100), (2, 20, 100)] TimeContext.new).samples.length
        = 1 ∧
    (runTrace [(1, 10, 100), (2, 20, 100), (3, 20, 100)]
        TimeContext.new).samples.length = 2 := by
  constructor <;>
    norm_num [runTrace, update_eta, update_history, calc_speed_per_unit,
      speed_step, get_progress, u64sub, F.div, F.beq, F.sub, F.add,
      TimeContext.new, List.cons_ne_nil]

/-- Claim C1, amended: restricted to tracker states whose `first_progress`
is 0 (e.g. tracking that began at 0%), two consecutive `update_eta` calls
with identical `cur_prog`/`max_prog` (`max_prog ≠ 0`) and any timestamps
leave the history unchanged on the second call, while `current_progress`
is recomputed and stored by both calls.  (In general the dedup rule fires
iff the last stored sample's absolute progress equals
`progress - first_progress`, which for `first_progress = 0` holds exactly
when progress has not advanced.) -/
theorem c1_dedup_second_identical (s : TimeContext) (t1 t2 t3 t4 c m : Nat)
    (hm : m ≠ 0) (hfp : s.fprog = some (F.fin 0)) :
    (update_eta t3 t4 c m (update_eta t1 t2 c m s)).samples =
      (update_eta t1 t2 c m s).samples ∧
    (update_eta t1 t2 c m s).cprog = get_progress c m ∧
    (update_eta t3 t4 c m (update_eta t1 t2 c m s)).cprog =
      get_progress c m := by
  refine ⟨?_, update_eta_cprog t1 t2 c m s, update_eta_cprog t3 t4 c m _⟩
  have hp := get_progress_of_ne_zero c m hm
  have hsub : F.sub (get_progress c m) (F.fin 0) = get_progress c m := by
    rw [hp, F.sub_fin, sub_zero]
  have hfp1 : (update_eta t1 t2 c m s).fprog = some (F.fin 0) :=
    update_eta_fprog_some t1 t2 c m _ s hfp
  cases hb : F.beq (last_progress s) (F.sub (get_progress c m) (F.fin 0)) with
  | true =>
    have h1 := update_eta_dedup t1 t2 c m s _ hfp hb
    apply update_eta_dedup t3 t4 c m _ _ hfp1
    rw [last_progress_congr _ s h1]
    exact hb
  | false =>
    have h1 := update_eta_append t1 t2 c m s _ hfp hb
    apply update_eta_dedup t3 t4 c m _ _ hfp1
    rw [last_progress_of_samples_concat _ _ _ h1]
    have hproj : ({ timestamp := t2, progress := get_progress c m } :
        Sample).progress = get_progress c m := rfl
    rw [hproj, hsub, hp]
    exact F.beq_fin_self _

/-- A small reachable-shape state used to instantiate the universally
quantified claims: firsts set at time 0 and progress 0, one sample taken
at time 5 with progress 10. -/
def wstate : TimeContext :=
  { curspeed := F.fin 0, cprog := F.fin 10, fts := some 0,
    fprog := some (F.fin 0),
    samples := [{ timestamp := 5, progress := F.fin 10 }] }

/-- Witness for C1's amended theorem: two identical `update(20,100)` calls
on `wstate`. -/
theorem c1_dedup_second_identical_witness :
    (update_eta 12 12 20 100 (update_eta 11 11 20 100 wstate)).samples =
      (update_eta 11 11 20 100 wstate).samples ∧
    (update_eta 11 11 20 100 wstate).cprog = get_progress 20 100 ∧
    (update_eta 12 12 20 100 (update_eta 11 11 20 100 wstate)).cprog =
      get_progress 20 100 :=
  c1_dedup_second_identical wstate 11 11 12 12 20 100 (by norm_num) rfl

/-- Claim C3: with `first_timestamp = t` and a finite
`first_progress = f`, and all sample timestamps in `[t, 2^64)` (no `u64`
underflow) with finite progress, `calc_speed_per_unit` returns 0 on an
empty history and otherwise the arithmetic mean over the samples of
`(progress - f) / d`, where `d` is `timestamp - t` if nonzero and 1
otherwise. -/
theorem c3_speed_is_window_mean (s : TimeContext) (t : Nat) (f : ℚ)
    (hts : s.fts = some t) (hfp : s.fprog = some (F.fin f))
    (hfin : ∀ smp ∈ s.samples, ∃ r, smp.progress = F.fin r)
    (hrange : ∀ smp ∈ s.samples, t ≤ smp.timestamp ∧ smp.timestamp < 2 ^ 64) :
    (s.samples = [] → calc_speed_per_unit s = F.fin 0) ∧
    (s.samples ≠ [] → calc_speed_per_unit s =
      F.fin ((s.samples.map (spec_sample_speed t f)).sum /
        (s.samples.length : ℚ))) := by
  constructor
  · intro h
    simp [calc_speed_per_unit, h]
  · intro hne
    have hgd : s.fts.getD 0 = t := by rw [hts]; rfl
    rw [calc_speed_eq_code s f hfp hne hfin, hgd]
    congr 2
    refine congrArg List.sum (List.map_congr_left ?_)
    intro smp hsmp
    unfold code_sample_speed spec_sample_speed
    rw [u64sub_of_le smp.timestamp t (hrange smp hsmp).1
      (hrange smp hsmp).2]

/-- Witness for C3 at `wstate`: a single sample of progress 10 at time 5
gives speed (10 - 0) / (5 - 0) = 2. -/
theorem c3_speed_witness : calc_speed_per_unit wstate = F.fin 2 := by
  have hfin : ∀ smp ∈ wstate.samples, ∃ r, smp.progress = F.fin r := by
    intro smp hsmp
    simp only [wstate, List.mem_singleton] at hsmp
    exact ⟨10, by rw [hsmp]⟩
  have hrange : ∀ smp ∈ wstate.samples,
      0 ≤ smp.timestamp ∧ smp.timestamp < 2 ^ 64 := by
    intro smp hsmp
    simp only [wstate, List.mem_singleton] at hsmp
    rw [hsmp]
    norm_num
  have h := (c3_speed_is_window_mean wstate 0 0 rfl rfl hfin hrange).2
    (by simp [wstate])
  norm_num [wstate, spec_sample_speed, F.finVal] at h
  exact h

/-- Claim C4: `get_remaining_time` returns 0 when either first is unset;
otherwise, with `eta = (100 - (cprog - first_progress)) / curspeed`, it
returns the integer cast of `eta` (truncation toward zero where defined)
when `eta >= 0` and 0 otherwise; a NaN `eta` fails the `>= 0` comparison
and yields 0, and a finite nonnegative `eta = q` yields `⌊q⌋`. -/
theorem c4_remaining_time_spec (s : TimeContext) :
    (s.fts = none → get_remaining_time s = some 0) ∧
    (s.fprog = none → get_remaining_time s = some 0) ∧
    (∀ t fp, s.fts = some t → s.fprog = some fp →
      (get_remaining_time s =
        if F.geZero (F.div (F.sub (F.fin 100) (F.sub s.cprog fp)) s.curspeed)
        then F.toIntCast (F.div (F.sub (F.fin 100) (F.sub s.cprog fp))
          s.curspeed)
        else some 0) ∧
      (F.div (F.sub (F.fin 100) (F.sub s.cprog fp)) s.curspeed = F.nan →
        get_remaining_time s = some 0) ∧
      (∀ q : ℚ, 0 ≤ q →
        F.div (F.sub (F.fin 100) (F.sub s.cprog fp)) s.curspeed = F.fin q →
        get_remaining_time s = some ⌊q⌋)) := by
  refine ⟨?_, ?_, ?_⟩
  · intro h
    simp [get_remaining_time, h]
  · intro h
    cases hft : s.fts with
    | none => simp [get_remaining_time, hft]
    | some t => simp [get_remaining_time, hft, h]
  · intro t fp hft hfp
    refine ⟨by simp [get_remaining_time, hft, hfp], ?_, ?_⟩
    · intro hnan
      simp [get_remaining_time, hft, hfp, hnan, F.geZero]
    · intro q hq heq
      simp [get_remaining_time, hft, hfp, heq, F.geZero, hq, F.toIntCast]

/-- A state with both firsts set, current progress 50% and speed 5, used
to instantiate C4. -/
def c4state : TimeContext :=
  { curspeed := F.fin 5, cprog := F.fin 50, fts := some 3,
    fprog := some (F.fin 0), samples := [] }

/-- Witness for C4 at `c4state`: eta = (100 - 50) / 5 = 10. -/
theorem c4_remaining_time_witness :
    get_remaining_time c4state = some 10 := by
  have heq : F.div (F.sub (F.fin 100) (F.sub c4state.cprog (F.fin 0)))
      c4state.curspeed = F.fin 10 := by
    have : c4state.cprog = F.fin 50 := rfl
    rw [this, F.sub_fin, F.sub_fin]
    have h5 : ((5 : ℚ)) ≠ 0 := by norm_num
    have : c4state.curspeed = F.fin 5 := rfl
    rw [this]
    rw [F.div_fin_fin_of_ne _ _ h5]
    norm_num
  have h := ((c4_remaining_time_spec c4state).2.2 3 (F.fin 0) rfl rfl).2.2
    10 (by norm_num) heq
  rw [h]
  norm_num

/-- Claim C8: over any call trace with strictly increasing per-call
timestamps, nonzero `max_prog` everywhere and non-decreasing progress
percentages, the computed speed after the whole trace is a nonnegative
finite value (every prefix is itself such a trace, so this holds after
every call). -/
theorem c8_speed_nonneg (tr : List (Nat × Nat × Nat))
    (hm : ∀ e ∈ tr, e.2.2 ≠ 0)
    (hts : (tr.map (fun e => e.1)).Pairwise (· < ·))
    (hp : (tr.map (fun e => (e.2.1 * 100 : ℚ) / (e.2.2 : ℚ))).Pairwise
      (· ≤ ·)) :
    ∃ q, 0 ≤ q ∧
      calc_speed_per_unit (runTrace tr TimeContext.new) = F.fin q := by
  cases tr with
  | nil =>
    exact ⟨0, le_refl 0, by
      simp [runTrace_nil, calc_speed_per_unit, TimeContext.new]⟩
  | cons e tr =>
    have hm1 : e.2.2 ≠ 0 := hm e (List.mem_cons_self e tr)
    have hfirst := update_eta_first e.1 e.1 e.2.1 e.2.2 hm1
    rw [runTrace_cons]
    have hinv0 : SpeedInv ((e.2.1 * 100 : ℚ) / (e.2.2 : ℚ))
        (update_eta e.1 e.1 e.2.1 e.2.2 TimeContext.new) := by
      rw [hfirst]
      exact ⟨rfl, by intro smp h; exact absurd h (List.not_mem_nil smp)⟩
    have hple : ∀ x ∈ tr,
        (e.2.1 * 100 : ℚ) / (e.2.2 : ℚ) ≤ (x.2.1 * 100 : ℚ) / (x.2.2 : ℚ) := by
      rw [List.map_cons, List.pairwise_cons] at hp
      intro x hx
      exact hp.1 _ (List.mem_map_of_mem _ hx)
    have hinv := runTrace_inv tr _ _ hinv0
      (fun x hx => hm x (List.mem_cons_of_mem _ hx)) hple
    exact calc_speed_nonneg _ _ hinv.1 hinv.2

/-- Witness for C8 on the two-call trace `update(0,100); update(50,100)`
at times 1, 2. -/
theorem c8_speed_nonneg_witness :
    ∃ q, 0 ≤ q ∧ calc_speed_per_unit
      (runTrace [(1, 0, 100), (2, 50, 100)] TimeContext.new) = F.fin q :=
  c8_speed_nonneg [(1, 0, 100), (2, 50, 100)] (by norm_num)
    (by norm_num [List.pairwise_cons]) (by norm_num [List.pairwise_cons])
